import Mathlib

/-!
Shallow embedding of the core of `libvbs.cc`: the chunk record, the ordered
chunk set, the virtual-file model, the handle table and the I/O engine
(`vbs_open` / `mk6_open` / `vbs_read` / `vbs_lseek` / `vbs_close`), the two
discovery strategies (scattered and Mark6 block-header) and the `escape`
utility.  Machine integers (`int`, `off_t`, `ssize_t`) are modelled as `Int`,
`size_t` and `unsigned int` as `Nat`; syscall effects are modelled through an
explicit environment record.
-/

namespace Libvbs

/-- `const int invalidFileDescriptor = std::numeric_limits<int>::max();` -/
def invalidFileDescriptor : Int := 2147483647

/-- `std::numeric_limits<int>::max()`, the sentinel value used when minting a
handle for an empty handle table. -/
def INT_MAX : Int := 2147483647

/-- POSIX-style error codes / typed exceptions thrown by the library. -/
inductive vbs_error where
  | EINVAL
  | EBADF
  | EFAULT
  | ENOENT
  | duplicateChunk
  | corruptBlockHeader
deriving DecidableEq, Repr

instance {e a : Type} [DecidableEq e] [DecidableEq a] : DecidableEq (Except e a) := fun x y =>
  match x, y with
  | .ok u, .ok v =>
      if h : u = v then isTrue (congrArg Except.ok h)
      else isFalse (fun hc => h (Except.ok.inj hc))
  | .error u, .error v =>
      if h : u = v then isTrue (congrArg Except.error h)
      else isFalse (fun hc => h (Except.error.inj hc))
  | .ok _, .error _ => isFalse (fun hc => Except.noConfusion hc)
  | .error _, .ok _ => isFalse (fun hc => Except.noConfusion hc)

/-- `struct filechunk_type`: metadata of one chunk of a recording. -/
structure filechunk_type where
  pathToChunk : String
  chunkSize   : Int
  chunkPos    : Int
  chunkFd     : Int
  chunkOffset : Int
  chunkNumber : Nat
deriving DecidableEq, Repr, Inhabited

/-- The Mark6-chunk constructor
`filechunk_type(unsigned int chunk, off_t fpos, off_t sz, int fd)`:
stores the negated shared file descriptor in `chunkFd`. -/
def filechunk_type.mk6chunk (chunk : Nat) (fpos sz : Int) (fd : Int) : filechunk_type :=
  { pathToChunk := "", chunkSize := sz, chunkPos := fpos, chunkFd := -fd,
    chunkOffset := 0, chunkNumber := chunk }

/-- Environment (filesystem oracle) for the I/O engine: result of `::open` on a
scattered chunk (negative means failure, as `::open` returns `-1`), physical
length of the file backing a chunk, and whether `::read` fails for a chunk;
all keyed by the chunk's sequence number. -/
structure env_type where
  openFd  : Nat → Int
  physLen : Nat → Int
  readErr : Nat → Bool

/-- `filechunk_type::open_chunk`: lazily open the descriptor; on failure the
descriptor stays `invalidFileDescriptor`.  Returns the updated chunk together
with the value the member function returns (`(chunkFd<0) ? -chunkFd : chunkFd`). -/
def open_chunk (env : env_type) (c : filechunk_type) : filechunk_type × Int :=
  let c' := if c.chunkFd = invalidFileDescriptor then
              { c with chunkFd := if env.openFd c.chunkNumber = -1 then
                                    invalidFileDescriptor
                                  else env.openFd c.chunkNumber }
            else c
  (c', if c'.chunkFd < 0 then -c'.chunkFd else c'.chunkFd)

/-- `filechunk_type::close_chunk`: close and reset to `invalidFileDescriptor`,
but only for a real (non-negative, non-invalid) descriptor. -/
def close_chunk (c : filechunk_type) : filechunk_type :=
  if 0 ≤ c.chunkFd ∧ c.chunkFd ≠ invalidFileDescriptor then
    { c with chunkFd := invalidFileDescriptor }
  else c

/-- What `::read(realfd, buf, n2r)` returns in the model: `-1` on a read error,
otherwise the number of available bytes, capped at the request. -/
def env_read (env : env_type) (num : Nat) (physpos n2r : Int) : Int :=
  if env.readErr num then -1
  else min n2r (max 0 (env.physLen num - physpos))

/-- Sequence numbers occurring in a chunk list. -/
def chunkNumbers (s : List filechunk_type) : List Nat :=
  s.map filechunk_type.chunkNumber

/-- Plain positional insert keeping the list sorted by `chunkNumber`. -/
def insertSortedChunk (c : filechunk_type) : List filechunk_type → List filechunk_type
  | [] => [c]
  | x :: xs => if c.chunkNumber < x.chunkNumber then c :: x :: xs
               else x :: insertSortedChunk c xs

/-- `std::set<filechunk_type>::insert` (the set is ordered by `chunkNumber`
exclusively): fails — `second == false` — iff the sequence number is already
present. -/
def insertChunk (s : List filechunk_type) (c : filechunk_type) :
    Option (List filechunk_type) :=
  if c.chunkNumber ∈ chunkNumbers s then none
  else some (insertSortedChunk c s)

/-- `struct openfile_type`: the virtual file.  The cursor `chunkPtr` is the
index into the ordered chunk list; `chunkPtr = fileChunks.length` models the
`end()` iterator. -/
structure openfile_type where
  filePointer : Int
  fileSize    : Int
  fileChunks  : List filechunk_type
  chunkPtr    : Nat
deriving DecidableEq, Repr

/-- The offset-assignment walk of the `openfile_type` constructor: given the
running size so far, set each chunk's `chunkOffset` and accumulate the total. -/
def assignOffsets (sz : Int) : List filechunk_type → List filechunk_type × Int
  | [] => ([], sz)
  | c :: rest =>
      let r := assignOffsets (sz + c.chunkSize) rest
      ({ c with chunkOffset := sz } :: r.1, r.2)

/-- `openfile_type::openfile_type(filechunks_type const& fcs)`: assign logical
offsets in sequence order, compute the total size, put the cursor on the first
chunk and the position at 0. -/
def openfile_type.ofChunks (fcs : List filechunk_type) : openfile_type :=
  let r := assignOffsets 0 fcs
  { filePointer := 0, fileSize := r.2, fileChunks := r.1, chunkPtr := 0 }

/-- Close the chunk at index `i` (no-op on an out-of-range index). -/
def closeChunkAt (l : List filechunk_type) (i : Nat) : List filechunk_type :=
  match l.get? i with
  | none => l
  | some c => l.set i (close_chunk c)

----------------------------------------------------------------
-- Handle table
----------------------------------------------------------------

/-- Minting a new handle:
`openedFiles.empty() ? std::numeric_limits<int>::max() : (openedFiles.begin()->first - 1)`.
The key list is the ascending key sequence of the `std::map`, so its head is
the smallest existing handle. -/
def mintHandle (keys : List Int) : Int :=
  match keys with
  | [] => INT_MAX
  | k :: _ => k - 1

/-- Lookup in the handle table (`openedFiles.find(fd)`). -/
def lookupOpen (table : List (Int × openfile_type)) (fd : Int) : Option openfile_type :=
  (table.find? (fun p => decide (p.1 = fd))).map Prod.snd

/-- Ordered-map insert (`std::map::insert`): keeps the existing entry if the
key is already present. -/
def insertTable (fd : Int) (of : openfile_type) :
    List (Int × openfile_type) → List (Int × openfile_type)
  | [] => [(fd, of)]
  | (k, v) :: rest =>
      if fd < k then (fd, of) :: (k, v) :: rest
      else if fd = k then (k, v) :: rest
      else (k, v) :: insertTable fd of rest

/-- Replace the payload stored under a key (the in-place mutation of
`fptr->second` through the reference obtained from `find`). -/
def updateOpen (table : List (Int × openfile_type)) (fd : Int) (of : openfile_type) :
    List (Int × openfile_type) :=
  table.map (fun p => if p.1 = fd then (p.1, of) else p)

/-- `std::map::erase` at key level. -/
def eraseKey (k : Int) (keys : List Int) : List Int :=
  keys.filter (fun x => decide (x ≠ k))

/-- Sorted insert at key level (what `std::map::insert` does to the key
sequence when the key is fresh or present). -/
def insertKey (k : Int) : List Int → List Int
  | [] => [k]
  | x :: xs => if k < x then k :: x :: xs
               else if k = x then x :: xs
               else x :: insertKey k xs

/-- Key sequences of the handle table reachable from the initial (empty)
state by successful opens (which insert the freshly minted handle) and
closes (which erase a key). -/
inductive ReachableKeys : List Int → Prop where
  | nil : ReachableKeys []
  | openStep (ks : List Int) : ReachableKeys ks →
      ReachableKeys (insertKey (mintHandle ks) ks)
  | closeStep (ks : List Int) (k : Int) : ReachableKeys ks →
      ReachableKeys (eraseKey k ks)

----------------------------------------------------------------
-- I/O engine
----------------------------------------------------------------

/-- The tail of `vbs_open` / `mk6_open` after discovery has produced the chunk
set: empty chunk set fails with `ENOENT`; otherwise a new handle is minted and
the freshly constructed virtual file is installed in the handle table. -/
def vbs_open_core (table : List (Int × openfile_type)) (chunks : List filechunk_type) :
    List (Int × openfile_type) × Except vbs_error Int :=
  if chunks.isEmpty then (table, .error .ENOENT)
  else
    let fd := mintHandle (table.map Prod.fst)
    (insertTable fd (openfile_type.ofChunks chunks) table, .ok fd)

/-- The `while( nr )` loop of `vbs_read`, with explicit fuel.  The final `Bool`
is `true` iff the loop exited through one of its own stopping conditions
(`count` served, EOF, open failure, read failure) rather than by running out
of fuel. -/
def readLoop (env : env_type) : Nat → openfile_type → Nat → openfile_type × Nat × Bool
  | 0, of, nr => (of, nr, false)
  | fuel + 1, of, nr =>
    if nr = 0 then (of, nr, true)
    else if of.chunkPtr < of.fileChunks.length then
      let chunk := of.fileChunks.getD of.chunkPtr default
      let n2r : Int := min (nr : Int) (chunk.chunkOffset + chunk.chunkSize - of.filePointer)
      if n2r ≤ 0 then
        readLoop env fuel
          { of with fileChunks := of.fileChunks.set of.chunkPtr (close_chunk chunk),
                    chunkPtr := of.chunkPtr + 1 } nr
      else
        let oc := open_chunk env chunk
        let of' := { of with fileChunks := of.fileChunks.set of.chunkPtr oc.1 }
        if oc.2 = invalidFileDescriptor then (of', nr, true)
        else
          let physpos := of.filePointer - chunk.chunkOffset + chunk.chunkPos
          let actualread := env_read env chunk.chunkNumber physpos n2r
          if actualread < 0 then (of', nr, true)
          else
            readLoop env fuel
              { of' with filePointer := of'.filePointer + actualread }
              (nr - actualread.toNat)
    else (of, nr, true)

/-- `ssize_t vbs_read(int fd, void* buf, size_t count)`.  The buffer is
modelled only through its nullness; the returned table reflects the in-place
mutation of the found `openfile_type`. -/
def vbs_read (table : List (Int × openfile_type)) (env : env_type)
    (fd : Int) (bufNull : Bool) (count : Nat) :
    List (Int × openfile_type) × Except vbs_error Nat :=
  match lookupOpen table fd with
  | none => (table, .error .EBADF)
  | some of =>
    if bufNull then (table, .error .EFAULT)
    else if count = 0 then (table, .ok 0)
    else if of.chunkPtr = of.fileChunks.length then (table, .ok 0)
    else
      let r := readLoop env (of.fileChunks.length - of.chunkPtr + count + 1) of count
      (updateOpen table fd r.1, .ok (count - r.2.1))

def SEEK_SET : Int := 0
def SEEK_CUR : Int := 1
def SEEK_END : Int := 2

/-- The `switch( whence )` of `vbs_lseek`: `none` models the `default:` branch. -/
def computeNewfp (of : openfile_type) (offset whence : Int) : Option Int :=
  if whence = SEEK_SET then some offset
  else if whence = SEEK_END then some (of.fileSize + offset)
  else if whence = SEEK_CUR then some (of.filePointer + offset)
  else none

/-- The cursor search of `vbs_lseek`:
`while( newchunk!=end && newfp>(newchunk->chunkOffset+newchunk->chunkSize) ) newchunk++;`
returns the index of the chunk the loop stops at (`length` = `end()`). -/
def findChunk (newfp : Int) : List filechunk_type → Nat
  | [] => 0
  | c :: rest => if c.chunkOffset + c.chunkSize < newfp then findChunk newfp rest + 1 else 0

/-- `off_t vbs_lseek(int fd, off_t offset, int whence)`, per open file. -/
def vbs_lseek_file (of : openfile_type) (offset whence : Int) :
    openfile_type × Except vbs_error Int :=
  match computeNewfp of offset whence with
  | none => (of, .error .EINVAL)
  | some newfp =>
    if newfp < 0 then (of, .error .EINVAL)
    else if newfp = of.filePointer then (of, .ok of.filePointer)
    else
      let newchunk := findChunk newfp of.fileChunks
      let of1 := if of.chunkPtr ≠ newchunk ∧ of.chunkPtr ≠ of.fileChunks.length
                 then { of with fileChunks := closeChunkAt of.fileChunks of.chunkPtr }
                 else of
      ({ of1 with filePointer := newfp, chunkPtr := newchunk }, .ok newfp)

/-- `vbs_lseek` at handle-table level. -/
def vbs_lseek (table : List (Int × openfile_type)) (fd : Int) (offset whence : Int) :
    List (Int × openfile_type) × Except vbs_error Int :=
  match lookupOpen table fd with
  | none => (table, .error .EBADF)
  | some of =>
    let r := vbs_lseek_file of offset whence
    (updateOpen table fd r.1, r.2)

----------------------------------------------------------------
-- Discovery: scattered (FlexBuff) strategy
----------------------------------------------------------------

/-- The duplicate-checking insertion loop of `scanRecordingDirectory`: every
matching directory entry is inserted into the shared chunk set, and a failed
insert raises the `vbs_except` typed failure
(`EZASSERT2((rv.insert(...)).second, vbs_except, ...)`). -/
def scanRecordingDirectory_model (rv : List filechunk_type) :
    List filechunk_type → Except vbs_error (List filechunk_type)
  | [] => .ok rv
  | c :: rest =>
    match insertChunk rv c with
    | none => .error .duplicateChunk
    | some rv' => scanRecordingDirectory_model rv' rest

/-- The merge loop of `scanMk6RecordingMountpoint_thrd`: each local chunk is
inserted into the shared set under the mutex; a failed insert is only logged
(`DEBUG(-1, ... "duplicate file chunk" ...)`) and the chunk is skipped. -/
def scanMk6RecordingMountpoint_merge (shared : List filechunk_type) :
    List filechunk_type → List filechunk_type
  | [] => shared
  | c :: rest =>
      scanMk6RecordingMountpoint_merge ((insertChunk shared c).getD shared) rest

----------------------------------------------------------------
-- Discovery: Mark6 block-header strategy
----------------------------------------------------------------

/-- Modelled from the spec: `MARK6_SG_SYNC_WORD` is a constant declared in
`mk6info.h`, which is not part of the sources; only the equality test on it
matters here. -/
def MARK6_SG_SYNC_WORD : Nat := 0xfeed6666

/-- Modelled from the spec: a Mark6 file as seen by `scanMk6RecordingFile`.
The byte layouts of `mk6_file_header` and `mk6_wb_header_v2` live in
`mk6info.h`, which is not part of the sources; the file is abstracted to the
header fields consulted by the scan (`sync_word`, `version`), its physical
length, and the pair `(blocknum, wb_size)` a block-header read at a given byte
offset would yield.  A header read of `wbsz` bytes at offset `fpos` succeeds
iff `fpos + wbsz ≤ len`. -/
structure mk6file_type where
  sync_word : Nat
  version   : Nat
  len       : Int
  hdrAt     : Int → Int × Int

/-- The block-reading loop of `scanMk6RecordingFile` (`wbsz` is
`sizeof(mk6_wb_header_v2)`).  The returned `Bool` is `true` iff the file
descriptor is still open on exit: the loop closes it on a corrupt block
header and on a duplicate insert, and leaves it open otherwise. -/
def scanMk6Blocks (wbsz : Nat) (f : mk6file_type) (fd : Int) (fpos : Int)
    (rv : List filechunk_type) : Except vbs_error (List filechunk_type) × Bool :=
  if hread : fpos + (wbsz : Int) ≤ f.len then
    let bn := (f.hdrAt fpos).1
    let wb := (f.hdrAt fpos).2
    if hok : 0 ≤ bn ∧ 0 < wb then
      let fpos1 := fpos + (wbsz : Int)
      match insertChunk rv (filechunk_type.mk6chunk bn.toNat fpos1 (wb - (wbsz : Int)) fd) with
      | none => (.error .duplicateChunk, false)
      | some rv' => scanMk6Blocks wbsz f fd (fpos1 + (wb - (wbsz : Int))) rv'
    else (.error .corruptBlockHeader, false)
  else (.ok rv, true)
termination_by (f.len + 1 - fpos).toNat
decreasing_by
  simp_wf
  omega

/-- `scanMk6RecordingFile` (`fhsz` is `sizeof(mk6_file_header)`): read and
validate the file header, then scan the blocks starting right after it.  On a
file-header failure the file is skipped silently, the chunk set stays empty
and the descriptor is closed. -/
def scanMk6RecordingFile_model (fhsz wbsz : Nat) (f : mk6file_type) (fd : Int) :
    Except vbs_error (List filechunk_type) × Bool :=
  if (fhsz : Int) ≤ f.len then
    if f.sync_word = MARK6_SG_SYNC_WORD then
      if f.version = 2 then
        scanMk6Blocks wbsz f fd (fhsz : Int) []
      else (.ok [], false)
    else (.ok [], false)
  else (.ok [], false)

----------------------------------------------------------------
-- escape
----------------------------------------------------------------

/-- `static const string alphanum_str(...)` -/
def alphanum_str : String :=
  "_abcdefghijklmnopqrstuvwxyzABCDEFGHIJKLMNOPQRSTUVWXYZ01234567890"

/-- The character loop of `escape`: a backslash is emitted before any
character not found in `alphanum_str`. -/
def escapeList : List Char → List Char
  | [] => []
  | c :: rest =>
    if alphanum_str.toList.contains c then c :: escapeList rest
    else '\\' :: c :: escapeList rest

/-- `string escape(string const& s)` -/
def escape (s : String) : String := String.mk (escapeList s.toList)

/-- The character class `[A-Za-z0-9_]` from the specification, by ASCII code. -/
def isWordChar (c : Char) : Bool :=
  ('A'.toNat ≤ c.toNat ∧ c.toNat ≤ 'Z'.toNat) ∨
  ('a'.toNat ≤ c.toNat ∧ c.toNat ≤ 'z'.toNat) ∨
  ('0'.toNat ≤ c.toNat ∧ c.toNat ≤ '9'.toNat) ∨
  c.toNat = '_'.toNat

----------------------------------------------------------------
-- Helper lemmas
----------------------------------------------------------------

lemma contains_eq_isWordChar (c : Char) :
    alphanum_str.toList.contains c = isWordChar c := by
  rcases h : isWordChar c with _ | _
  · refine Bool.eq_false_iff.mpr (fun hcon => ?_)
    have hx : c ∈ alphanum_str.toList := List.elem_iff.mp hcon
    suffices hw : isWordChar c = true by rw [h] at hw; exact Bool.false_ne_true hw
    fin_cases hx <;> decide
  · simp only [isWordChar, Bool.or_eq_true, decide_eq_true_eq] at h
    have hc : c = Char.ofNat c.toNat := (Char.ofNat_toNat c).symm
    rw [hc]
    have h9 : ('A'.toNat ≤ c.toNat ∧ c.toNat ≤ 'Z'.toNat) ∨
        ('a'.toNat ≤ c.toNat ∧ c.toNat ≤ 'z'.toNat) ∨
        ('0'.toNat ≤ c.toNat ∧ c.toNat ≤ '9'.toNat) ∨ c.toNat = '_'.toNat := h
    generalize c.toNat = n at h9
    have hb : (65 ≤ n ∧ n ≤ 90) ∨ (97 ≤ n ∧ n ≤ 122) ∨ (48 ≤ n ∧ n ≤ 57) ∨ n = 95 := by
      simpa using h9
    rcases hb with ⟨h1, h2⟩ | ⟨h1, h2⟩ | ⟨h1, h2⟩ | rfl
    · interval_cases n <;> decide
    · interval_cases n <;> decide
    · interval_cases n <;> decide
    · decide

lemma escapeList_eq_flatMap (l : List Char) :
    escapeList l = l.flatMap (fun c => if isWordChar c then [c] else ['\\', c]) := by
  induction l with
  | nil => rfl
  | cons c rest ih =>
    rw [List.flatMap_cons]
    cases hw : isWordChar c with
    | false =>
        rw [escapeList, contains_eq_isWordChar, hw, ih]
        simp
    | true =>
        rw [escapeList, contains_eq_isWordChar, hw, ih]
        simp

lemma flatMap_word_id (l : List Char) (h : ∀ c ∈ l, isWordChar c = true) :
    l.flatMap (fun c => if isWordChar c then [c] else ['\\', c]) = l := by
  induction l with
  | nil => rfl
  | cons c rest ih =>
    rw [List.flatMap_cons, h c (List.mem_cons_self c rest), ih (fun d hd => h d (List.mem_cons_of_mem c hd))]
    rfl

lemma assignOffsets_length (start : Int) (l : List filechunk_type) :
    (assignOffsets start l).1.length = l.length := by
  induction l generalizing start with
  | nil => rfl
  | cons c rest ih => simp [assignOffsets, ih]

lemma assignOffsets_getElem? (l : List filechunk_type) :
    ∀ (start : Int) (i : Nat),
      (assignOffsets start l).1[i]? = (l[i]?).map
        (fun c => { c with
          chunkOffset := start + ((l.take i).map filechunk_type.chunkSize).sum }) := by
  induction l with
  | nil => intro start i; simp [assignOffsets]
  | cons c rest ih =>
    intro start i
    cases i with
    | zero => simp [assignOffsets]
    | succ i =>
        simp only [assignOffsets, List.getElem?_cons_succ, ih (start + c.chunkSize) i,
          List.take_succ_cons, List.map_cons, List.sum_cons]
        rw [add_assoc]

lemma assignOffsets_snd (l : List filechunk_type) :
    ∀ start : Int, (assignOffsets start l).2 = start + (l.map filechunk_type.chunkSize).sum := by
  induction l with
  | nil => intro start; simp [assignOffsets]
  | cons c rest ih => intro start; simp [assignOffsets, ih, add_assoc]

lemma sum_take_getElem? (L : List Int) :
    ∀ (i : Nat) (x : Int), L[i]? = some x → (L.take (i + 1)).sum = (L.take i).sum + x := by
  induction L with
  | nil => intro i x h; simp at h
  | cons y ys ih =>
    intro i x h
    cases i with
    | zero => simp_all
    | succ i =>
        simp only [List.getElem?_cons_succ] at h
        rw [List.take_succ_cons, List.take_succ_cons, List.sum_cons, List.sum_cons,
          ih i x h, add_assoc]

lemma insertChunk_none_iff (s : List filechunk_type) (c : filechunk_type) :
    insertChunk s c = none ↔ c.chunkNumber ∈ chunkNumbers s := by
  unfold insertChunk
  split <;> simp_all

lemma mem_insertSortedChunk (c x : filechunk_type) (s : List filechunk_type)
    (hx : x ∈ s) : x ∈ insertSortedChunk c s := by
  induction s with
  | nil => cases hx
  | cons y ys ih =>
      rw [insertSortedChunk]
      rcases List.mem_cons.mp hx with rfl | hx'
      · split <;> simp
      · split
        · simp [List.mem_cons_of_mem, hx']
        · exact List.mem_cons_of_mem y (ih hx')

lemma chunkNumbers_subset_insertChunk {s s' : List filechunk_type} {c : filechunk_type}
    (h : insertChunk s c = some s') {n : Nat}
    (hn : n ∈ chunkNumbers s) : n ∈ chunkNumbers s' := by
  unfold insertChunk at h
  split at h
  · cases h
  · cases h
    rcases List.mem_map.mp hn with ⟨x, hx, rfl⟩
    exact List.mem_map.mpr ⟨x, mem_insertSortedChunk c x s hx, rfl⟩

----------------------------------------------------------------
-- Claim theorems
----------------------------------------------------------------

/-- C9: `escape(s)` returns `s` with a backslash inserted before every
character outside `[A-Za-z0-9_]` and all other characters unchanged in order;
consequently, on a string made only of `[A-Za-z0-9_]` characters, `escape` is
the identity. -/
theorem escape_characterization (s : String) :
    escape s = String.mk (s.toList.flatMap (fun c => if isWordChar c then [c] else ['\\', c])) ∧
    ((∀ c ∈ s.toList, isWordChar c = true) → escape s = s) := by
  constructor
  · rw [escape, escapeList_eq_flatMap]
  · intro h
    rw [escape, escapeList_eq_flatMap, flatMap_word_id _ h]
    rfl

/-- Witness for C9 at concrete inputs. -/
theorem escape_characterization_witness :
    escape "ab_c9" =
      String.mk ("ab_c9".toList.flatMap (fun c => if isWordChar c then [c] else ['\\', c])) ∧
    escape "ab_c9" = "ab_c9" :=
  ⟨(escape_characterization "ab_c9").1, (escape_characterization "ab_c9").2 (by decide)⟩

/-- C4: in a constructed virtual file, the first chunk's logical offset is 0,
each next chunk's logical offset is the previous chunk's offset plus its size,
and the total size is the sum of all chunk sizes. -/
theorem openfile_offsets (fcs : List filechunk_type) :
    (openfile_type.ofChunks fcs).fileChunks.length = fcs.length ∧
    (∀ c, (openfile_type.ofChunks fcs).fileChunks[0]? = some c → c.chunkOffset = 0) ∧
    (∀ i ci cj, (openfile_type.ofChunks fcs).fileChunks[i]? = some ci →
        (openfile_type.ofChunks fcs).fileChunks[i + 1]? = some cj →
        cj.chunkOffset = ci.chunkOffset + ci.chunkSize) ∧
    (openfile_type.ofChunks fcs).fileSize = (fcs.map filechunk_type.chunkSize).sum := by
  refine ⟨assignOffsets_length 0 fcs, ?_, ?_, by simp [openfile_type.ofChunks, assignOffsets_snd]⟩
  · intro c hc
    rw [show (openfile_type.ofChunks fcs).fileChunks = (assignOffsets 0 fcs).1 from rfl,
      assignOffsets_getElem?] at hc
    rcases Option.map_eq_some'.mp hc with ⟨b, _, hb⟩
    rw [← hb]
    simp
  · intro i ci cj hci hcj
    rw [show (openfile_type.ofChunks fcs).fileChunks = (assignOffsets 0 fcs).1 from rfl,
      assignOffsets_getElem?] at hci hcj
    rcases Option.map_eq_some'.mp hci with ⟨b, hbg, hb⟩
    rcases Option.map_eq_some'.mp hcj with ⟨b', _, hb'⟩
    have hsz : (fcs.map filechunk_type.chunkSize)[i]? = some b.chunkSize := by
      rw [List.getElem?_map, hbg]; rfl
    have hstep := sum_take_getElem? (fcs.map filechunk_type.chunkSize) i b.chunkSize hsz
    rw [← hb, ← hb']
    simp only [List.map_take] at hstep ⊢
    simp [hstep]

/-- Witness for C4 at a concrete two-chunk virtual file. -/
theorem openfile_offsets_witness :
    ({ pathToChunk := "", chunkSize := 10, chunkPos := 0, chunkFd := invalidFileDescriptor,
       chunkOffset := 0, chunkNumber := 0 } : filechunk_type).chunkOffset = 0 ∧
    ({ pathToChunk := "", chunkSize := 5, chunkPos := 0, chunkFd := invalidFileDescriptor,
       chunkOffset := 10, chunkNumber := 1 } : filechunk_type).chunkOffset =
      ({ pathToChunk := "", chunkSize := 10, chunkPos := 0, chunkFd := invalidFileDescriptor,
         chunkOffset := 0, chunkNumber := 0 } : filechunk_type).chunkOffset + 10 :=
  ⟨(openfile_offsets
      [{ pathToChunk := "", chunkSize := 10, chunkPos := 0, chunkFd := invalidFileDescriptor,
         chunkOffset := 7, chunkNumber := 0 },
       { pathToChunk := "", chunkSize := 5, chunkPos := 0, chunkFd := invalidFileDescriptor,
         chunkOffset := 7, chunkNumber := 1 }]).2.1 _ (by decide),
   (openfile_offsets
      [{ pathToChunk := "", chunkSize := 10, chunkPos := 0, chunkFd := invalidFileDescriptor,
         chunkOffset := 7, chunkNumber := 0 },
       { pathToChunk := "", chunkSize := 5, chunkPos := 0, chunkFd := invalidFileDescriptor,
         chunkOffset := 7, chunkNumber := 1 }]).2.2.1 0 _ _ (by decide) (by decide)⟩


/-- C6: duplicate handling differs by strategy.  In the scattered strategy an
insertion whose sequence number already exists anywhere in the shared chunk
set is a hard error (`duplicateChunk`) aborting the scan; in the block-header
strategy a duplicate sequence number met while merging a mountpoint's local
set into the shared set is skipped and the merge continues, never failing. -/
theorem duplicate_handling :
    (∀ (rv found : List filechunk_type) (c : filechunk_type),
        c ∈ found → c.chunkNumber ∈ chunkNumbers rv →
        scanRecordingDirectory_model rv found = .error .duplicateChunk) ∧
    (∀ (shared : List filechunk_type) (c : filechunk_type) (rest : List filechunk_type),
        c.chunkNumber ∈ chunkNumbers shared →
        scanMk6RecordingMountpoint_merge shared (c :: rest) =
          scanMk6RecordingMountpoint_merge shared rest) := by
  constructor
  · intro rv found
    induction found generalizing rv with
    | nil => intro c hc _; exact absurd hc (List.not_mem_nil c)
    | cons d rest ih =>
        intro c hc hmem
        rw [scanRecordingDirectory_model]
        cases hins : insertChunk rv d with
        | none => rfl
        | some rv' =>
            rcases List.mem_cons.mp hc with rfl | hc'
            · rw [(insertChunk_none_iff rv c).mpr hmem] at hins
              cases hins
            · exact ih rv' c hc' (chunkNumbers_subset_insertChunk hins hmem)
  · intro shared c rest hmem
    rw [scanMk6RecordingMountpoint_merge, (insertChunk_none_iff shared c).mpr hmem]
    rfl

/-- Witness for C6 at concrete inputs: a fresh duplicate aborts the scattered
directory scan, while the Mark6 merge skips it. -/
theorem duplicate_handling_witness :
    scanRecordingDirectory_model
      [{ pathToChunk := "a", chunkSize := 4, chunkPos := 0, chunkFd := invalidFileDescriptor,
         chunkOffset := 0, chunkNumber := 3 }]
      [{ pathToChunk := "b", chunkSize := 9, chunkPos := 0, chunkFd := invalidFileDescriptor,
         chunkOffset := 0, chunkNumber := 3 }] = .error .duplicateChunk ∧
    scanMk6RecordingMountpoint_merge
      [{ pathToChunk := "a", chunkSize := 4, chunkPos := 0, chunkFd := invalidFileDescriptor,
         chunkOffset := 0, chunkNumber := 3 }]
      [{ pathToChunk := "b", chunkSize := 9, chunkPos := 0, chunkFd := invalidFileDescriptor,
         chunkOffset := 0, chunkNumber := 3 }] =
      scanMk6RecordingMountpoint_merge
        [{ pathToChunk := "a", chunkSize := 4, chunkPos := 0, chunkFd := invalidFileDescriptor,
           chunkOffset := 0, chunkNumber := 3 }] [] :=
  ⟨duplicate_handling.1 _ _ _ (List.mem_singleton.mpr rfl) (by decide),
   duplicate_handling.2 _ _ [] (by decide)⟩

/-- A concrete Mark6 file whose first block header is corrupt (negative
block number), used as a witness input. -/
def mk6fileBad : mk6file_type :=
  { sync_word := MARK6_SG_SYNC_WORD, version := 2, len := 100, hdrAt := fun _ => (-1, 16) }

/-- A concrete valid Mark6 file with one block, used as a witness input:
file header of 28 bytes, block headers of 8 bytes, one block of 72 bytes
starting at offset 28. -/
def mk6fileGood : mk6file_type :=
  { sync_word := MARK6_SG_SYNC_WORD, version := 2, len := 100,
    hdrAt := fun p => if p = 28 then (5, 72) else (0, 0) }

/-- C8: while parsing a block-header file, a block header read with
`block_number < 0` or `wb_size ≤ 0` fails with `corruptBlockHeader`, with the
file descriptor closed (the `Bool` component is `false`). -/
theorem scanMk6_corrupt_header (wbsz : Nat) (f : mk6file_type) (fd fpos : Int)
    (rv : List filechunk_type)
    (hread : fpos + (wbsz : Int) ≤ f.len)
    (hbad : (f.hdrAt fpos).1 < 0 ∨ (f.hdrAt fpos).2 ≤ 0) :
    scanMk6Blocks wbsz f fd fpos rv = (.error .corruptBlockHeader, false) := by
  rw [scanMk6Blocks, dif_pos hread, dif_neg]
  omega

/-- Witness for C8: a header with a negative block number at the first block
position of a concrete file. -/
theorem scanMk6_corrupt_header_witness :
    scanMk6Blocks 8 mk6fileBad 3 28 [] = (.error .corruptBlockHeader, false) :=
  scanMk6_corrupt_header 8 mk6fileBad 3 28 [] (by decide) (by decide)

/-- C5: in the block-header strategy, parsing starts at
`position = file_header_size`; each block header yields a chunk whose
sequence number is the header's `block_number`, whose size is
`wb_size - block_header_size` and whose position is the block's start plus
the block-header size; the next block header is read exactly `wb_size` bytes
after the start of the current one; a short header read ends the scan. -/
theorem scanMk6_block_parse :
    (∀ (fhsz wbsz : Nat) (f : mk6file_type) (fd : Int),
        (fhsz : Int) ≤ f.len → f.sync_word = MARK6_SG_SYNC_WORD → f.version = 2 →
        scanMk6RecordingFile_model fhsz wbsz f fd = scanMk6Blocks wbsz f fd (fhsz : Int) []) ∧
    (∀ (wbsz : Nat) (f : mk6file_type) (fd fpos : Int) (rv rv' : List filechunk_type),
        fpos + (wbsz : Int) ≤ f.len →
        0 ≤ (f.hdrAt fpos).1 → 0 < (f.hdrAt fpos).2 →
        insertChunk rv (filechunk_type.mk6chunk (f.hdrAt fpos).1.toNat (fpos + (wbsz : Int))
          ((f.hdrAt fpos).2 - (wbsz : Int)) fd) = some rv' →
        scanMk6Blocks wbsz f fd fpos rv =
          scanMk6Blocks wbsz f fd (fpos + (f.hdrAt fpos).2) rv' ∧
        (filechunk_type.mk6chunk (f.hdrAt fpos).1.toNat (fpos + (wbsz : Int))
            ((f.hdrAt fpos).2 - (wbsz : Int)) fd).chunkNumber = (f.hdrAt fpos).1.toNat ∧
        (filechunk_type.mk6chunk (f.hdrAt fpos).1.toNat (fpos + (wbsz : Int))
            ((f.hdrAt fpos).2 - (wbsz : Int)) fd).chunkPos = fpos + (wbsz : Int) ∧
        (filechunk_type.mk6chunk (f.hdrAt fpos).1.toNat (fpos + (wbsz : Int))
            ((f.hdrAt fpos).2 - (wbsz : Int)) fd).chunkSize = (f.hdrAt fpos).2 - (wbsz : Int)) ∧
    (∀ (wbsz : Nat) (f : mk6file_type) (fd fpos : Int) (rv : List filechunk_type),
        ¬ (fpos + (wbsz : Int) ≤ f.len) →
        scanMk6Blocks wbsz f fd fpos rv = (.ok rv, true)) := by
  refine ⟨?_, ?_, ?_⟩
  · intro fhsz wbsz f fd hlen hsync hver
    rw [scanMk6RecordingFile_model, if_pos hlen, if_pos hsync, if_pos hver]
  · intro wbsz f fd fpos rv rv' hread hbn hwb hins
    refine ⟨?_, rfl, rfl, rfl⟩
    conv_lhs => rw [scanMk6Blocks]
    simp only [dif_pos hread, dif_pos (And.intro hbn hwb), hins]
    have harith : fpos + (wbsz : Int) + ((f.hdrAt fpos).2 - (wbsz : Int)) =
        fpos + (f.hdrAt fpos).2 := by ring
    rw [harith]
  · intro wbsz f fd fpos rv hread
    rw [scanMk6Blocks, dif_neg hread]

/-- Witness for C5: a concrete one-block file with file header of 28 bytes and
block headers of 8 bytes. -/
theorem scanMk6_block_parse_witness :
    scanMk6RecordingFile_model 28 8 mk6fileGood 3 = scanMk6Blocks 8 mk6fileGood 3 28 [] ∧
    scanMk6Blocks 8 mk6fileGood 3 28 [] =
      scanMk6Blocks 8 mk6fileGood 3 100 [filechunk_type.mk6chunk 5 36 64 3] ∧
    scanMk6Blocks 8 mk6fileGood 3 100 [filechunk_type.mk6chunk 5 36 64 3] =
      (.ok [filechunk_type.mk6chunk 5 36 64 3], true) := by
  refine ⟨scanMk6_block_parse.1 28 8 mk6fileGood 3 (by decide) rfl rfl, ?_, ?_⟩
  · have h := (scanMk6_block_parse.2.1 8 mk6fileGood 3 28 []
      [filechunk_type.mk6chunk 5 36 64 3] (by decide) (by decide) (by decide) (by decide)).1
    simpa using h
  · exact scanMk6_block_parse.2.2 8 mk6fileGood 3 100 _ (by decide)

----------------------------------------------------------------
-- Shared concrete fixtures for witnesses and counterexamples
----------------------------------------------------------------

/-- A concrete scattered chunk of 10 bytes, sequence number 0. -/
def chunkW0 : filechunk_type :=
  { pathToChunk := "", chunkSize := 10, chunkPos := 0, chunkFd := invalidFileDescriptor,
    chunkOffset := 0, chunkNumber := 0 }

/-- A concrete scattered chunk of 5 bytes, sequence number 1. -/
def chunkW1 : filechunk_type :=
  { pathToChunk := "", chunkSize := 5, chunkPos := 0, chunkFd := invalidFileDescriptor,
    chunkOffset := 0, chunkNumber := 1 }

/-- A concrete virtual file over the two chunks above (size 15). -/
def ofW : openfile_type := openfile_type.ofChunks [chunkW0, chunkW1]

/-- `ofW` with its cursor on the end sentinel and the position at EOF. -/
def ofEndW : openfile_type := { ofW with filePointer := 15, chunkPtr := 2 }

/-- `ofW` with position 12 (inside the second chunk) but the cursor still on
the first chunk. -/
def ofMidW : openfile_type := { ofW with filePointer := 12 }

/-- A benign environment: every open succeeds with descriptor 3, every backing
file is 1000 bytes long, reads never fail. -/
def envW : env_type :=
  { openFd := fun _ => 3, physLen := fun _ => 1000, readErr := fun _ => false }

/-- A one-entry handle table holding `ofW` under handle `-5`. -/
def tableW : List (Int × openfile_type) := [(-5, ofW)]

/-- A one-entry handle table holding `ofEndW` under handle `-7`. -/
def tableEndW : List (Int × openfile_type) := [(-7, ofEndW)]

----------------------------------------------------------------
-- Handle-table lemmas
----------------------------------------------------------------

lemma sorted_mintHandle_lt {ks : List Int} (hs : ks.Sorted (· < ·)) (hne : ks ≠ []) :
    ∀ k ∈ ks, mintHandle ks < k := by
  cases ks with
  | nil => exact absurd rfl hne
  | cons h t =>
      intro k hk
      rcases List.mem_cons.mp hk with rfl | hk'
      · show k - 1 < k
        omega
      · have hlt : h < k := (List.sorted_cons.mp hs).1 k hk'
        show h - 1 < k
        omega

lemma insertKey_fresh_cons {x : Int} {ks : List Int} (h : ∀ k ∈ ks, x < k) :
    insertKey x ks = x :: ks := by
  cases ks with
  | nil => rfl
  | cons y ys =>
      rw [insertKey, if_pos (h y (List.mem_cons_self y ys))]

lemma reachable_sorted (ks : List Int) (hr : ReachableKeys ks) : ks.Sorted (· < ·) := by
  induction hr with
  | nil => exact List.sorted_nil
  | openStep ks hr ih =>
      have hlt : ∀ k ∈ ks, mintHandle ks < k := by
        cases ks with
        | nil => intro k hk; exact absurd hk (List.not_mem_nil k)
        | cons h t => exact sorted_mintHandle_lt ih (by simp)
      rw [insertKey_fresh_cons hlt]
      exact List.sorted_cons.mpr ⟨hlt, ih⟩
  | closeStep ks k hr ih => exact List.Pairwise.filter _ ih

----------------------------------------------------------------
-- C1, C7, C10
----------------------------------------------------------------

/-- C1 (amended): a successful open returns the handle minted from the table's
ascending key sequence; the sentinel for an empty table is
`INT_MAX = 2147483647` (a large positive value, not a negative one);
in every reachable table state the freshly minted handle is strictly smaller
than every live handle, hence handles strictly descend and never collide with
a live handle while the table is non-empty. -/
theorem vbs_open_handle_allocation :
    (∀ (table : List (Int × openfile_type)) (chunks : List filechunk_type),
        chunks ≠ [] →
        (vbs_open_core table chunks).2 = .ok (mintHandle (table.map Prod.fst))) ∧
    mintHandle [] = INT_MAX ∧
    (∀ ks : List Int, ReachableKeys ks → ∀ k ∈ ks, mintHandle ks < k ∧ mintHandle ks ≠ k) := by
  refine ⟨?_, rfl, ?_⟩
  · intro table chunks hne
    rw [vbs_open_core, if_neg (by simpa [List.isEmpty_iff] using hne)]
  · intro ks hr k hk
    have h := sorted_mintHandle_lt (reachable_sorted ks hr) (List.ne_nil_of_mem hk) k hk
    exact ⟨h, ne_of_lt h⟩

/-- C1 counterexample: opening into an empty handle table succeeds and returns
`2147483647`, which is not a strictly negative integer. -/
theorem vbs_open_handle_not_negative_cex :
    (vbs_open_core [] [chunkW0]).2 = .ok 2147483647 ∧ ¬ (2147483647 : Int) < 0 := by
  decide

/-- Witness for C1: first open mints the sentinel; in the reachable one-handle
state the next handle is strictly below the live one. -/
theorem vbs_open_handle_allocation_witness :
    (vbs_open_core [] [chunkW0]).2 = .ok (mintHandle []) ∧
    (mintHandle (insertKey (mintHandle []) []) < INT_MAX ∧
      mintHandle (insertKey (mintHandle []) []) ≠ INT_MAX) :=
  ⟨vbs_open_handle_allocation.1 [] [chunkW0] (by decide),
   vbs_open_handle_allocation.2.2 (insertKey (mintHandle []) [])
     (ReachableKeys.openStep [] ReachableKeys.nil) INT_MAX (by decide)⟩

/-- C7: `vbs_read` fails with `EBADF` on an unknown handle, then with `EFAULT`
on a null buffer, then returns 0 on a zero count, then returns 0 with the
cursor on the end sentinel — in that order. -/
theorem vbs_read_error_order :
    (∀ (table : List (Int × openfile_type)) (env : env_type) (fd : Int)
        (bufNull : Bool) (count : Nat), lookupOpen table fd = none →
        (vbs_read table env fd bufNull count).2 = .error .EBADF) ∧
    (∀ (table : List (Int × openfile_type)) (env : env_type) (fd : Int)
        (of : openfile_type) (count : Nat), lookupOpen table fd = some of →
        (vbs_read table env fd true count).2 = .error .EFAULT) ∧
    (∀ (table : List (Int × openfile_type)) (env : env_type) (fd : Int)
        (of : openfile_type), lookupOpen table fd = some of →
        (vbs_read table env fd false 0).2 = .ok 0) ∧
    (∀ (table : List (Int × openfile_type)) (env : env_type) (fd : Int)
        (of : openfile_type) (count : Nat), lookupOpen table fd = some of →
        0 < count → of.chunkPtr = of.fileChunks.length →
        (vbs_read table env fd false count).2 = .ok 0) := by
  refine ⟨?_, ?_, ?_, ?_⟩
  · intro table env fd bufNull count hnone
    simp [vbs_read, hnone]
  · intro table env fd of count hsome
    simp [vbs_read, hsome]
  · intro table env fd of hsome
    simp [vbs_read, hsome]
  · intro table env fd of count hsome hpos hend
    simp [vbs_read, hsome, Nat.pos_iff_ne_zero.mp hpos, hend]

/-- Witness for C7 over concrete tables: missing handle, null buffer, zero
count and end-sentinel cursor. -/
theorem vbs_read_error_order_witness :
    (vbs_read [] envW (-5) true 4).2 = .error .EBADF ∧
    (vbs_read tableW envW (-5) true 4).2 = .error .EFAULT ∧
    (vbs_read tableW envW (-5) false 0).2 = .ok 0 ∧
    (vbs_read tableEndW envW (-7) false 4).2 = .ok 0 :=
  ⟨vbs_read_error_order.1 [] envW (-5) true 4 (by decide),
   vbs_read_error_order.2.1 tableW envW (-5) ofW 4 (by decide),
   vbs_read_error_order.2.2.1 tableW envW (-5) ofW (by decide),
   vbs_read_error_order.2.2.2 tableEndW envW (-7) ofEndW 4 (by decide) (by decide) (by decide)⟩

/-- C10: when the position computed from a valid `whence` is non-negative and
equals the current position, `vbs_lseek` returns it and leaves the whole
virtual-file state unchanged — no cursor move, no descriptor close — whatever
the cursor points at. -/
theorem vbs_lseek_noop_same_position (of : openfile_type) (offset whence newfp : Int)
    (hw : computeNewfp of offset whence = some newfp) (hpos : 0 ≤ newfp)
    (heq : newfp = of.filePointer) :
    vbs_lseek_file of offset whence = (of, .ok of.filePointer) := by
  simp only [vbs_lseek_file, hw]
  rw [if_neg (by omega), if_pos heq]

/-- Witness for C10: `ofMidW` has position 12 inside the second chunk while
its cursor is on the first; `SEEK_CUR` by 0 is a complete no-op. -/
theorem vbs_lseek_noop_same_position_witness :
    vbs_lseek_file ofMidW 0 SEEK_CUR = (ofMidW, .ok ofMidW.filePointer) :=
  vbs_lseek_noop_same_position ofMidW 0 SEEK_CUR 12 (by decide) (by decide) (by decide)

----------------------------------------------------------------
-- C2: vbs_lseek repositioning
----------------------------------------------------------------

lemma findChunk_le_length (fp : Int) (l : List filechunk_type) :
    findChunk fp l ≤ l.length := by
  induction l with
  | nil => exact Nat.le_refl 0
  | cons c rest ih =>
      rw [findChunk]
      split
      · simpa using ih
      · simp

lemma findChunk_before (fp : Int) (l : List filechunk_type) :
    ∀ j < findChunk fp l, ∀ c, l[j]? = some c → c.chunkOffset + c.chunkSize < fp := by
  induction l with
  | nil => intro j hj; rw [findChunk] at hj; omega
  | cons d rest ih =>
      intro j hj c hc
      rw [findChunk] at hj
      split at hj
      · cases j with
        | zero =>
            rw [List.getElem?_cons_zero] at hc
            cases hc
            assumption
        | succ j =>
            rw [List.getElem?_cons_succ] at hc
            exact ih j (by omega) c hc
      · omega

lemma findChunk_at (fp : Int) (l : List filechunk_type) :
    ∀ c, l[findChunk fp l]? = some c → fp ≤ c.chunkOffset + c.chunkSize := by
  induction l with
  | nil => intro c hc; rw [findChunk] at hc; cases hc
  | cons d rest ih =>
      intro c hc
      rw [findChunk] at hc
      split at hc
      · rw [List.getElem?_cons_succ] at hc
        exact ih c hc
      · rw [List.getElem?_cons_zero] at hc
        cases hc
        omega

lemma findChunk_eq_length_iff (fp : Int) (l : List filechunk_type) :
    findChunk fp l = l.length ↔ ∀ c ∈ l, c.chunkOffset + c.chunkSize < fp := by
  induction l with
  | nil => simp [findChunk]
  | cons d rest ih =>
      rw [findChunk]
      split
      · simp only [List.length_cons, Nat.add_right_cancel_iff, ih, List.mem_cons]
        constructor
        · rintro h c (rfl | hc)
          · assumption
          · exact h c hc
        · intro h c hc
          exact h c (Or.inr hc)
      · simp only [List.length_cons]
        constructor
        · omega
        · intro h
          exact absurd (h d (List.mem_cons_self d rest)) (by assumption)

/-- C2 (amended): for an open handle, `vbs_lseek` computes the new position as
`offset` for `SEEK_SET`, position plus `offset` for `SEEK_CUR`, size plus
`offset` for `SEEK_END`; any other `whence`, or a negative resulting position,
fails with `EINVAL`, leaving the state untouched; when the result is
non-negative and differs from the current position it is returned, the cursor
moves to the FIRST chunk whose `logical_offset + size` is `≥` the new
position — i.e. the interval `(logical_offset, logical_offset + size]` for
non-initial chunks, not the half-open interval of the original claim — or to
the end sentinel exactly when the new position strictly exceeds
`logical_offset + size` of every chunk; the old cursor chunk is closed iff the
cursor actually moves off a non-sentinel chunk. -/
theorem vbs_lseek_reposition (of : openfile_type) (offset whence : Int) :
    computeNewfp of offset SEEK_SET = some offset ∧
    computeNewfp of offset SEEK_CUR = some (of.filePointer + offset) ∧
    computeNewfp of offset SEEK_END = some (of.fileSize + offset) ∧
    (whence ≠ SEEK_SET ∧ whence ≠ SEEK_CUR ∧ whence ≠ SEEK_END →
        vbs_lseek_file of offset whence = (of, .error .EINVAL)) ∧
    (∀ newfp, computeNewfp of offset whence = some newfp → newfp < 0 →
        vbs_lseek_file of offset whence = (of, .error .EINVAL)) ∧
    (∀ newfp, computeNewfp of offset whence = some newfp → 0 ≤ newfp →
      newfp ≠ of.filePointer →
      (vbs_lseek_file of offset whence).2 = .ok newfp ∧
      (vbs_lseek_file of offset whence).1.filePointer = newfp ∧
      (vbs_lseek_file of offset whence).1.chunkPtr ≤ of.fileChunks.length ∧
      (∀ j < (vbs_lseek_file of offset whence).1.chunkPtr, ∀ c,
          of.fileChunks[j]? = some c → c.chunkOffset + c.chunkSize < newfp) ∧
      (∀ c, of.fileChunks[(vbs_lseek_file of offset whence).1.chunkPtr]? = some c →
          newfp ≤ c.chunkOffset + c.chunkSize) ∧
      ((vbs_lseek_file of offset whence).1.chunkPtr = of.fileChunks.length ↔
          ∀ c ∈ of.fileChunks, c.chunkOffset + c.chunkSize < newfp) ∧
      (vbs_lseek_file of offset whence).1.fileChunks =
        (if of.chunkPtr = (vbs_lseek_file of offset whence).1.chunkPtr ∨
            of.chunkPtr = of.fileChunks.length
         then of.fileChunks else closeChunkAt of.fileChunks of.chunkPtr)) := by
  refine ⟨rfl, rfl, rfl, ?_, ?_, ?_⟩
  · intro hbad
    have hnone : computeNewfp of offset whence = none := by
      rw [computeNewfp, if_neg hbad.1, if_neg hbad.2.2, if_neg hbad.2.1]
    simp only [vbs_lseek_file, hnone]
  · intro newfp hw hneg
    simp only [vbs_lseek_file, hw]
    rw [if_pos hneg]
  intro newfp hw hpos hne
  have hres : vbs_lseek_file of offset whence =
      ({ (if of.chunkPtr ≠ findChunk newfp of.fileChunks ∧
            of.chunkPtr ≠ of.fileChunks.length
          then { of with fileChunks := closeChunkAt of.fileChunks of.chunkPtr }
          else of) with
         filePointer := newfp, chunkPtr := findChunk newfp of.fileChunks }, .ok newfp) := by
    simp only [vbs_lseek_file, hw]
    rw [if_neg (by omega), if_neg hne]
  rw [hres]
  refine ⟨rfl, rfl, findChunk_le_length newfp of.fileChunks,
    findChunk_before newfp of.fileChunks, findChunk_at newfp of.fileChunks,
    findChunk_eq_length_iff newfp of.fileChunks, ?_⟩
  by_cases hcl : of.chunkPtr ≠ findChunk newfp of.fileChunks ∧
      of.chunkPtr ≠ of.fileChunks.length
  · rw [if_pos hcl, if_neg (by tauto)]
  · rw [if_neg hcl, if_pos (by tauto)]

/-- C2 counterexample: on a virtual file with chunks `[0,10)` and `[10,15)`,
seeking to the boundary position 10 puts the cursor on the FIRST chunk, whose
half-open interval does not contain 10, although the second chunk's half-open
interval does — refuting the claimed `[logical_offset, logical_offset+size)`
cursor rule. -/
theorem vbs_lseek_interval_cex :
    (vbs_lseek_file ofW 10 SEEK_SET).2 = .ok 10 ∧
    (vbs_lseek_file ofW 10 SEEK_SET).1.chunkPtr = 0 ∧
    ¬ ((ofW.fileChunks.getD 0 default).chunkOffset ≤ 10 ∧
        10 < (ofW.fileChunks.getD 0 default).chunkOffset +
          (ofW.fileChunks.getD 0 default).chunkSize) ∧
    ((ofW.fileChunks.getD 1 default).chunkOffset ≤ 10 ∧
        10 < (ofW.fileChunks.getD 1 default).chunkOffset +
          (ofW.fileChunks.getD 1 default).chunkSize) := by
  decide

/-- Witness for C2 at the concrete file `ofW`: an invalid whence of 7, a
negative resulting position, and a repositioning seek to 12. -/
theorem vbs_lseek_reposition_witness :
    vbs_lseek_file ofW 3 7 = (ofW, .error .EINVAL) ∧
    vbs_lseek_file ofW (-1) SEEK_SET = (ofW, .error .EINVAL) ∧
    (vbs_lseek_file ofW 12 SEEK_SET).2 = .ok 12 ∧
    (vbs_lseek_file ofW 12 SEEK_SET).1.filePointer = 12 := by
  have h12 := (vbs_lseek_reposition ofW 12 SEEK_SET).2.2.2.2.2 12 (by decide) (by decide)
    (by decide)
  exact ⟨(vbs_lseek_reposition ofW 3 7).2.2.2.1 (by decide),
    (vbs_lseek_reposition ofW (-1) SEEK_SET).2.2.2.2.1 (-1) (by decide) (by decide),
    h12.1, h12.2.1⟩

----------------------------------------------------------------
-- C3: vbs_read termination
----------------------------------------------------------------

/-- The data-model invariant needed by the read loop: each chunk's region
`[chunkPos, chunkPos + chunkSize)` lies inside its backing file. -/
def chunksInv (env : env_type) (l : List filechunk_type) : Prop :=
  ∀ c ∈ l, c.chunkPos + c.chunkSize ≤ env.physLen c.chunkNumber

lemma close_chunk_sig (c : filechunk_type) :
    (close_chunk c).chunkSize = c.chunkSize ∧ (close_chunk c).chunkPos = c.chunkPos ∧
    (close_chunk c).chunkNumber = c.chunkNumber := by
  rw [close_chunk]
  split <;> simp

lemma open_chunk_sig (env : env_type) (c : filechunk_type) :
    ((open_chunk env c).1).chunkSize = c.chunkSize ∧
    ((open_chunk env c).1).chunkPos = c.chunkPos ∧
    ((open_chunk env c).1).chunkNumber = c.chunkNumber := by
  simp only [open_chunk]
  split <;> simp

lemma chunksInv_set (env : env_type) {l : List filechunk_type} (hl : chunksInv env l)
    (i : Nat) {c c' : filechunk_type} (hcl : c ∈ l)
    (hsig : c'.chunkSize = c.chunkSize ∧ c'.chunkPos = c.chunkPos ∧
      c'.chunkNumber = c.chunkNumber) :
    chunksInv env (l.set i c') := by
  intro d hd
  rcases List.mem_or_eq_of_mem_set hd with h | rfl
  · exact hl d h
  · rw [hsig.2.1, hsig.1, hsig.2.2]
    exact hl c hcl

lemma readLoop_halts (env : env_type) :
    ∀ (fuel : Nat) (of : openfile_type) (nr : Nat),
      of.chunkPtr ≤ of.fileChunks.length →
      chunksInv env of.fileChunks →
      of.fileChunks.length - of.chunkPtr + nr < fuel →
      (readLoop env fuel of nr).2.2 = true ∧ (readLoop env fuel of nr).2.1 ≤ nr := by
  intro fuel
  induction fuel with
  | zero => intro of nr _ _ hm; omega
  | succ fuel ih =>
      intro of nr hptr hinv hm
      simp only [readLoop]
      by_cases h0 : nr = 0
      · rw [if_pos h0]
        exact ⟨rfl, Nat.le_refl nr⟩
      · rw [if_neg h0]
        by_cases hlt : of.chunkPtr < of.fileChunks.length
        · rw [if_pos hlt]
          set chunk := of.fileChunks.getD of.chunkPtr default with hchunk
          have hmem : chunk ∈ of.fileChunks := by
            rw [hchunk, List.getD_eq_getElem?_getD]
            rw [List.getElem?_eq_getElem hlt]
            exact List.getElem_mem hlt
          set n2r : Int :=
            min (nr : Int) (chunk.chunkOffset + chunk.chunkSize - of.filePointer) with hn2r
          by_cases hn : n2r ≤ 0
          · rw [if_pos hn]
            refine ih _ nr ?_ ?_ ?_
            · simp only [List.length_set]
              omega
            · exact chunksInv_set env hinv _ hmem (close_chunk_sig chunk)
            · simp only [List.length_set]
              omega
          · rw [if_neg hn]
            by_cases hopen : (open_chunk env chunk).2 = invalidFileDescriptor
            · rw [if_pos hopen]
              exact ⟨rfl, Nat.le_refl nr⟩
            · rw [if_neg hopen]
              set physpos := of.filePointer - chunk.chunkOffset + chunk.chunkPos with hpp
              by_cases herr : env_read env chunk.chunkNumber physpos n2r < 0
              · rw [if_pos herr]
                exact ⟨rfl, Nat.le_refl nr⟩
              · rw [if_neg herr]
                have hre : env.readErr chunk.chunkNumber = false := by
                  by_contra hb
                  rw [Bool.not_eq_false] at hb
                  apply herr
                  simp [env_read, hb]
                have hphys := hinv chunk hmem
                have hval : env_read env chunk.chunkNumber physpos n2r = n2r := by
                  rw [env_read, if_neg (by simp [hre])]
                  refine min_eq_left ?_
                  have h1 : n2r ≤ chunk.chunkOffset + chunk.chunkSize - of.filePointer :=
                    min_le_right _ _
                  have h2 : chunk.chunkOffset + chunk.chunkSize - of.filePointer ≤
                      env.physLen chunk.chunkNumber - physpos := by
                    rw [hpp]
                    omega
                  exact le_trans (le_trans h1 h2) (le_max_right _ _)
                rw [hval]
                refine (fun hres => ⟨hres.1, Nat.le_trans hres.2 (Nat.sub_le nr _)⟩)
                  (ih { filePointer := of.filePointer + n2r, fileSize := of.fileSize,
                        fileChunks := of.fileChunks.set of.chunkPtr (open_chunk env chunk).1,
                        chunkPtr := of.chunkPtr }
                    (nr - n2r.toNat) ?_ ?_ ?_)
                · show of.chunkPtr ≤ (of.fileChunks.set of.chunkPtr (open_chunk env chunk).1).length
                  rw [List.length_set]
                  omega
                · exact chunksInv_set env hinv _ hmem (open_chunk_sig env chunk)
                · show (of.fileChunks.set of.chunkPtr (open_chunk env chunk).1).length -
                    of.chunkPtr + (nr - n2r.toNat) < fuel
                  rw [List.length_set]
                  omega
        · rw [if_neg hlt]
          exact ⟨rfl, Nat.le_refl nr⟩

/-- C3: under the data-model invariant that every chunk's region lies inside
its backing file, every `vbs_read` call terminates — the loop, given its
stated fuel, exits through one of its own stopping conditions (`count`
served, EOF, open failure, read failure) — and the call returns the number of
bytes served, which never exceeds `count`. -/
theorem vbs_read_terminates (table : List (Int × openfile_type)) (env : env_type)
    (fd : Int) (count : Nat) (of : openfile_type)
    (hof : lookupOpen table fd = some of)
    (hptr : of.chunkPtr ≤ of.fileChunks.length)
    (hinv : chunksInv env of.fileChunks) :
    (readLoop env (of.fileChunks.length - of.chunkPtr + count + 1) of count).2.2 = true ∧
    (vbs_read table env fd false count).2 =
      .ok (count -
        (readLoop env (of.fileChunks.length - of.chunkPtr + count + 1) of count).2.1) ∧
    count - (readLoop env (of.fileChunks.length - of.chunkPtr + count + 1) of count).2.1 ≤
      count := by
  have h := readLoop_halts env (of.fileChunks.length - of.chunkPtr + count + 1) of count
    hptr hinv (by omega)
  refine ⟨h.1, ?_, Nat.sub_le _ _⟩
  by_cases hc0 : count = 0
  · subst hc0
    simp [vbs_read, hof, readLoop]
  · by_cases hend : of.chunkPtr = of.fileChunks.length
    · have hloop : (readLoop env (count + 1) of count).2.1 = count := by
        rw [readLoop, if_neg hc0, if_neg (by omega)]
      simp [vbs_read, hof, hc0, hend, hloop, Nat.sub_self]
    · simp [vbs_read, hof, hc0, hend]

/-- Witness for C3: reading 15 bytes from the concrete two-chunk file through
its handle terminates and serves a definite byte count. -/
theorem vbs_read_terminates_witness :
    (readLoop envW (ofW.fileChunks.length - ofW.chunkPtr + 15 + 1) ofW 15).2.2 = true ∧
    (vbs_read tableW envW (-5) false 15).2 =
      .ok (15 - (readLoop envW (ofW.fileChunks.length - ofW.chunkPtr + 15 + 1) ofW 15).2.1) := by
  have h := vbs_read_terminates tableW envW (-5) 15 ofW (by decide) (by decide)
    (by intro c hc; fin_cases hc <;> decide)
  exact ⟨h.1, h.2.1⟩

end Libvbs
